import Mathlib

/-!
# Verification of the `retry` package (flowchartsman/retry)

Shallow embedding of `retry.go` into Lean 4.

Modelling decisions:
* Go `error` values are the inductive `GoError`: `.base msg` is an ordinary
  error with message `msg`, `.term e` is the unexported `terminalError{e}`
  wrapper produced by `Stop`.
* Go `time.Duration` and `int` are 64-bit signed integers; they are modelled
  as `Int` with explicit two's-complement wrapping (`int64wrap`) at the one
  arithmetic operation of the source where overflow matters
  (`int64(initialDelay)*(1<<uint(attempts))` in `getnextBackoff`).
* `rand.Int63n` draws are modelled by an oracle `rand : Int → Int`; a valid
  oracle satisfies `0 ≤ rand n < n` whenever `0 < n` (`RandModel`).  A call
  with argument `n ≤ 0` panics in Go, so `getnextBackoff` returns `Option`:
  `none` models the panic.
* The retry loops `Run`/`RunContext` are fuel-indexed recursions returning
  `Option RunTrace`; `none` means the fuel was exhausted before the loop
  returned, `some tr` records the outcome, the number of operation
  invocations, and the number of completed backoff waits.  The operation is
  an oracle `op : Nat → Option GoError` giving the result of the i-th
  invocation (1-based); `none` is Go `nil` (success).
* `RunContext`'s `select` between the backoff timer and `ctx.Done()` is
  modelled by an oracle `cancelled : Nat → Bool`: `cancelled k = true` means
  the cancellation branch wins the select during the wait that follows the
  k-th failed invocation.
* The `attempts` counter is kept as an unbounded `Int`; its Go wrap-around
  could only be observed after 2^63 loop iterations, beyond any fuel bound
  reasoned about here.
-/

namespace Retry

/-- Go `error` values as seen by this package: an ordinary error carrying a
message, or the `terminalError` wrapper around another error. -/
inductive GoError where
  | base (msg : String) : GoError
  | term (e : GoError) : GoError
deriving DecidableEq, Repr

/-- Source `func (t terminalError) Error() string { return t.e.Error() }`; an
ordinary error yields its own message. -/
def GoError.errorString : GoError → String
  | .base msg => msg
  | .term e => e.errorString

/-- Source `func Stop(err error) error { return terminalError{err} }` -/
def Stop (e : GoError) : GoError := GoError.term e

/-- Two's-complement wrap of an integer into `int64` range. -/
def int64wrap (x : Int) : Int := (x + 2 ^ 63) % 2 ^ 64 - 2 ^ 63

/-- Go conversion `uint(x)` of a (64-bit) signed value: reinterpret modulo
`2^64` as a non-negative number. -/
def gouint64 (x : Int) : Nat := (x % 2 ^ 64).toNat

/-- Go expression `1 << s` at type `int64`: shifting by 64 or more yields 0,
otherwise the bit pattern `2^s` reinterpreted as a signed 64-bit value. -/
def goShl1 (s : Nat) : Int := if 64 ≤ s then 0 else int64wrap (2 ^ s)

/-- Source `func min(a, b time.Duration) time.Duration`. -/
def goMin (a b : Int) : Int := if a > b then b else a

/-- The fixed-up `backoff` value of `getnextBackoff`:
`backoff := int64(initialDelay)*(1<<uint(attempts))`, then replaced by
`int64(maxDelay)` when it is zero or negative. -/
def backoffArg (attempts initialDelay maxDelay : Int) : Int :=
  let backoff := int64wrap (initialDelay * goShl1 (gouint64 attempts))
  if backoff = 0 then maxDelay
  else if backoff < 0 then maxDelay
  else backoff

/-- Source `func getnextBackoff(attempts int, initialDelay, maxDelay time.Duration) time.Duration`.
Here `rand` is the `randInt63n` oracle; `none` models the `rand.Int63n` panic
on a non-positive argument, otherwise the result is
`min(maxDelay, time.Duration(randInt63n(backoff)))`. -/
def getnextBackoff (rand : Int → Int) (attempts initialDelay maxDelay : Int) :
    Option Int :=
  let backoff := backoffArg attempts initialDelay maxDelay
  if backoff ≤ 0 then none
  else some (goMin maxDelay (rand backoff))

/-- A valid model of `rand.Int63n`: on a positive bound the draw is
non-negative and below the bound. -/
def RandModel (rand : Int → Int) : Prop :=
  ∀ n : Int, 0 < n → 0 ≤ rand n ∧ rand n < n

/-- Source `type Retrier struct { maxTries int; initialDelay, maxDelay time.Duration }` -/
structure Retrier where
  maxTries : Int
  initialDelay : Int
  maxDelay : Int
deriving DecidableEq, Repr

/-- Constant `DefaultMaxTries = 5` -/
def DefaultMaxTries : Int := 5

/-- Constant `DefaultInitialDelay = time.Millisecond * 200` (in nanoseconds) -/
def DefaultInitialDelay : Int := 200 * 1000000

/-- Constant `DefaultMaxDelay = time.Millisecond * 1000` (in nanoseconds) -/
def DefaultMaxDelay : Int := 1000 * 1000000

/-- Source `func NewRetrier(maxTries int, initialDelay, maxDelay time.Duration) *Retrier` -/
def NewRetrier (maxTries initialDelay maxDelay : Int) : Retrier :=
  { maxTries := if maxTries ≤ 0 then DefaultMaxTries else maxTries
    initialDelay := if initialDelay ≤ 0 then DefaultInitialDelay else initialDelay
    maxDelay := if maxDelay ≤ 0 then DefaultMaxDelay else maxDelay }

/-- Outcome of a retry run: success, a final error value, or a Go panic
raised inside the loop (by `rand.Int63n`). -/
inductive RunResult where
  | ok : RunResult
  | failed (e : GoError) : RunResult
  | panicked : RunResult
deriving DecidableEq, Repr

/-- Observable trace of one retry run: its outcome, how many times the
operation was invoked, and how many backoff waits completed. -/
structure RunTrace where
  result : RunResult
  invocations : Nat
  sleeps : Nat
deriving DecidableEq, Repr

/-- Loop body of `Retrier.Run`, fuel-indexed.  `attempts` mirrors the source
counter; `invoked` counts operation invocations so far; `sleeps` counts
completed `time.Sleep` calls. -/
def runAux (r : Retrier) (rand : Int → Int) (op : Nat → Option GoError)
    (attempts : Int) (invoked sleeps : Nat) : Nat → Option RunTrace
  | 0 => none
  | fuel + 1 =>
    match op (invoked + 1) with
    | none => some ⟨.ok, invoked + 1, sleeps⟩
    | some err =>
      let attempts' := attempts + 1
      if attempts' = r.maxTries then some ⟨.failed err, invoked + 1, sleeps⟩
      else
        match err with
        | .term e => some ⟨.failed e, invoked + 1, sleeps⟩
        | .base _ =>
          match getnextBackoff rand attempts' r.initialDelay r.maxDelay with
          | none => some ⟨.panicked, invoked + 1, sleeps⟩
          | some _ => runAux r rand op attempts' (invoked + 1) (sleeps + 1) fuel

/-- Source `func (r *Retrier) Run(funcToRetry func() error) error`. -/
def Retrier.run (r : Retrier) (rand : Int → Int) (op : Nat → Option GoError)
    (fuel : Nat) : Option RunTrace :=
  runAux r rand op 0 0 0 fuel

/-- Loop body of `Retrier.RunContext`, fuel-indexed.  `cancelled k` tells
whether `ctx.Done()` wins the `select` during the wait after the k-th failed
invocation; the timer argument (hence the possible `rand.Int63n` panic) is
evaluated before the `select` races, as in the source. -/
def runContextAux (r : Retrier) (rand : Int → Int) (cancelled : Nat → Bool)
    (op : Nat → Option GoError) (attempts : Int) (invoked sleeps : Nat) :
    Nat → Option RunTrace
  | 0 => none
  | fuel + 1 =>
    match op (invoked + 1) with
    | none => some ⟨.ok, invoked + 1, sleeps⟩
    | some err =>
      let attempts' := attempts + 1
      if attempts' = r.maxTries then some ⟨.failed err, invoked + 1, sleeps⟩
      else
        match err with
        | .term e => some ⟨.failed e, invoked + 1, sleeps⟩
        | .base _ =>
          match getnextBackoff rand attempts' r.initialDelay r.maxDelay with
          | none => some ⟨.panicked, invoked + 1, sleeps⟩
          | some _ =>
            if cancelled (invoked + 1) then some ⟨.failed err, invoked + 1, sleeps⟩
            else runContextAux r rand cancelled op attempts' (invoked + 1) (sleeps + 1) fuel

/-- Source `func (r *Retrier) RunContext(ctx context.Context, funcToRetry func(context.Context) error) error`. -/
def Retrier.runContext (r : Retrier) (rand : Int → Int) (cancelled : Nat → Bool)
    (op : Nat → Option GoError) (fuel : Nat) : Option RunTrace :=
  runContextAux r rand cancelled op 0 0 0 fuel

end Retry

namespace Retry

/-! ## Claim C10: `Stop` preserves the error message -/

/-- C10: For every error value `e`, the wrapper returned by `Stop(e)` is
itself an error (it has an `Error()` string in the model) and its `Error()`
string equals `e.Error()` exactly: wrapping never alters the message. -/
theorem stop_preserves_error_string (e : GoError) :
    (Stop e).errorString = e.errorString := rfl

/-! ## Claim C8: `NewRetrier` defaulting -/

/-- C8: Each non-positive constructor argument is independently replaced by
its documented default (5 attempts, 200ms initial delay, 1000ms max delay,
durations in nanoseconds) and each positive argument is kept; in particular
all-non-positive arguments yield exactly the default policy. -/
theorem newRetrier_defaults (a d m : Int) :
    NewRetrier a d m =
      { maxTries := if a ≤ 0 then 5 else a
        initialDelay := if d ≤ 0 then 200000000 else d
        maxDelay := if m ≤ 0 then 1000000000 else m } ∧
    (a ≤ 0 → d ≤ 0 → m ≤ 0 →
      NewRetrier a d m = { maxTries := 5, initialDelay := 200000000, maxDelay := 1000000000 }) := by
  constructor
  · rfl
  · intro ha hd hm
    simp [NewRetrier, ha, hd, hm, DefaultMaxTries, DefaultInitialDelay, DefaultMaxDelay]

/-- Witness for C8 at a concrete all-non-positive input. -/
theorem newRetrier_defaults_witness :
    NewRetrier (-1) 0 (-7) = { maxTries := 5, initialDelay := 200000000, maxDelay := 1000000000 } :=
  (newRetrier_defaults (-1) 0 (-7)).2 (by decide) (by decide) (by decide)

/-! ## Lemmas about the backoff computation -/

/-- Unfolding of `backoffArg` through its local binding. -/
theorem backoffArg_def (a i m : Int) :
    backoffArg a i m =
      if int64wrap (i * goShl1 (gouint64 a)) = 0 then m
      else if int64wrap (i * goShl1 (gouint64 a)) < 0 then m
      else int64wrap (i * goShl1 (gouint64 a)) := rfl

/-- Unfolding of `getnextBackoff` in terms of `backoffArg`. -/
theorem getnextBackoff_def (rand : Int → Int) (a i m : Int) :
    getnextBackoff rand a i m =
      if backoffArg a i m ≤ 0 then none
      else some (goMin m (rand (backoffArg a i m))) := rfl

/-- When `maxDelay` is positive, the fixed-up backoff bound is positive, so
the `rand.Int63n` precondition always holds. -/
theorem backoffArg_pos (a i m : Int) (hm : 0 < m) : 0 < backoffArg a i m := by
  rw [backoffArg_def]
  split
  · exact hm
  · split
    · exact hm
    · omega

/-- When `maxDelay` is positive, `getnextBackoff` never panics and returns
the clamped jittered value. -/
theorem getnextBackoff_eq_some (rand : Int → Int) (a i m : Int) (hm : 0 < m) :
    getnextBackoff rand a i m = some (goMin m (rand (backoffArg a i m))) := by
  rw [getnextBackoff_def, if_neg (by have := backoffArg_pos a i m hm; omega)]

/-! ## Claim C3: backoff is total and bounded -/

/-- C3: For every attempt number (including very large ones for which
`initialDelay * 2^attempts` overflows `int64`) and every configuration with
`maxDelay > 0`, `getnextBackoff` returns (never panics) a duration in
`[0, maxDelay]`; overflow degrades to a jittered value bounded by `maxDelay`. -/
theorem getnextBackoff_in_range (rand : Int → Int) (hrand : RandModel rand)
    (attempts initialDelay maxDelay : Int) (hm : 0 < maxDelay) :
    ∃ d, getnextBackoff rand attempts initialDelay maxDelay = some d ∧
      0 ≤ d ∧ d ≤ maxDelay := by
  have hb : 0 < backoffArg attempts initialDelay maxDelay :=
    backoffArg_pos attempts initialDelay maxDelay hm
  obtain ⟨hr0, _⟩ := hrand _ hb
  refine ⟨goMin maxDelay (rand (backoffArg attempts initialDelay maxDelay)),
    getnextBackoff_eq_some rand attempts initialDelay maxDelay hm, ?_, ?_⟩
  · unfold goMin; split <;> omega
  · unfold goMin; split <;> omega

/-- Witness for C3 at a very large attempt number (the shift has long since
overflowed to zero, triggering the `maxDelay` fallback). -/
theorem getnextBackoff_in_range_witness :
    ∃ d, getnextBackoff (fun _ => 0) 1000000 500000000 1000000 = some d ∧
      0 ≤ d ∧ d ≤ 1000000 :=
  getnextBackoff_in_range (fun _ => 0) (fun n hn => ⟨le_refl 0, hn⟩)
    1000000 500000000 1000000 (by decide)

/-! ## Claim C4: the zero-value policy crashes -/

/-- C4 evidence: evaluating the embedded code on the failing input.  A
zero-initialized policy (`Retrier{}`: maxTries = 0, initialDelay = 0,
maxDelay = 0) run against an operation that keeps failing non-terminally
panics during the first backoff computation: `backoff` fixes up to
`maxDelay = 0` and `rand.Int63n(0)` panics, contradicting the claim (and the
repository test `TestZeroValueRetrierDoesNotPanic`). -/
theorem zeroValueRetrier_panics :
    (Retrier.mk 0 0 0).run (fun _ => 0) (fun _ => some (GoError.base "transient")) 5
      = some ⟨.panicked, 1, 0⟩ ∧
    getnextBackoff (fun _ => 0) 1 0 0 = none := by
  constructor
  · rfl
  · rfl

/-! ## Claim C2: terminal failure on the first invocation -/

/-- C2 counterexample: with `maxAttempts = 1`, the attempt-count check fires
before the terminal-error type switch, so `Run` returns the still-wrapped
terminal error, not the unwrapped original failure value, refuting the claim
that the terminal check bypasses the attempt-count check. -/
theorem terminal_maxTries_one_counterexample :
    (NewRetrier 1 50000000 50000000).run (fun _ => 0)
        (fun _ => some (Stop (GoError.base "boom"))) 3
      = some ⟨.failed (GoError.term (GoError.base "boom")), 1, 0⟩ ∧
    GoError.term (GoError.base "boom") ≠ GoError.base "boom" := by
  constructor
  · rfl
  · decide

/-- Helper: a run whose first invocation yields a terminal failure returns
after exactly one invocation, unwrapping exactly when `maxTries ≠ 1`. -/
theorem run_terminal_first_aux (r : Retrier) (_h1 : 1 ≤ r.maxTries)
    (rand : Int → Int) (e : GoError) (op : Nat → Option GoError) (fuel : Nat)
    (hop : op 1 = some (GoError.term e)) :
    r.run rand op (fuel + 1)
      = some ⟨.failed (if r.maxTries = 1 then GoError.term e else e), 1, 0⟩ := by
  show runAux r rand op 0 0 0 (fuel + 1) = _
  rw [runAux]
  simp only [Nat.zero_add, hop]
  by_cases h : r.maxTries = 1
  · rw [if_pos (by omega), if_pos h]
  · rw [if_neg (by omega), if_neg h]

/-- Helper: `RunContext` version of `run_terminal_first_aux`. -/
theorem runContext_terminal_first_aux (r : Retrier) (_h1 : 1 ≤ r.maxTries)
    (rand : Int → Int) (cancelled : Nat → Bool) (e : GoError)
    (op : Nat → Option GoError) (fuel : Nat)
    (hop : op 1 = some (GoError.term e)) :
    r.runContext rand cancelled op (fuel + 1)
      = some ⟨.failed (if r.maxTries = 1 then GoError.term e else e), 1, 0⟩ := by
  show runContextAux r rand cancelled op 0 0 0 (fuel + 1) = _
  rw [runContextAux]
  simp only [Nat.zero_add, hop]
  by_cases h : r.maxTries = 1
  · rw [if_pos (by omega), if_pos h]
  · rw [if_neg (by omega), if_neg h]

/-- C2 amended: for every policy with `maxAttempts ≥ 1` and every operation
whose first invocation returns a terminal (wrapped) failure, `Run` and
`RunContext` invoke the operation exactly once with no backoff wait; when
`maxAttempts ≥ 2` they return the unwrapped original failure, while when
`maxAttempts = 1` the attempt-count check fires first and the wrapped
terminal error is returned as-is. -/
theorem terminal_first_invocation (r : Retrier) (h1 : 1 ≤ r.maxTries)
    (rand : Int → Int) (cancelled : Nat → Bool) (e : GoError)
    (op opc : Nat → Option GoError) (fuel : Nat)
    (hop : op 1 = some (GoError.term e)) (hopc : opc 1 = some (GoError.term e)) :
    r.run rand op (fuel + 1)
      = some ⟨.failed (if r.maxTries = 1 then GoError.term e else e), 1, 0⟩ ∧
    r.runContext rand cancelled opc (fuel + 1)
      = some ⟨.failed (if r.maxTries = 1 then GoError.term e else e), 1, 0⟩ :=
  ⟨run_terminal_first_aux r h1 rand e op fuel hop,
   runContext_terminal_first_aux r h1 rand cancelled e opc fuel hopc⟩

/-- Witness for C2 (amended) at `maxAttempts = 2`. -/
theorem terminal_first_invocation_witness :
    (NewRetrier 2 1 1).run (fun _ => 0)
        (fun _ => some (GoError.term (GoError.base "x"))) 1
      = some ⟨.failed (if (NewRetrier 2 1 1).maxTries = 1
          then GoError.term (GoError.base "x") else GoError.base "x"), 1, 0⟩ ∧
    (NewRetrier 2 1 1).runContext (fun _ => 0) (fun _ => false)
        (fun _ => some (GoError.term (GoError.base "x"))) 1
      = some ⟨.failed (if (NewRetrier 2 1 1).maxTries = 1
          then GoError.term (GoError.base "x") else GoError.base "x"), 1, 0⟩ :=
  terminal_first_invocation (NewRetrier 2 1 1) (by decide) (fun _ => 0) (fun _ => false)
    (GoError.base "x") _ _ 0 rfl rfl

/-! ## Claim C9: jitter never influences control flow on terminal failures -/

/-- C9: two policies built from identical arguments run against the same
deterministic terminal-failing operation produce identical outcomes —
identical invocation counts and identical final failure values — regardless
of the jitter oracles (and fuel) used by the two runs, and each run invokes
the operation exactly once. -/
theorem run_terminal_rand_independent (a d m : Int) (rand1 rand2 : Int → Int)
    (op : Nat → Option GoError) (e : GoError) (hop : op 1 = some (GoError.term e))
    (fuel1 fuel2 : Nat) :
    (NewRetrier a d m).run rand1 op (fuel1 + 1)
      = (NewRetrier a d m).run rand2 op (fuel2 + 1) ∧
    ∃ tr : RunTrace, (NewRetrier a d m).run rand1 op (fuel1 + 1) = some tr ∧
      tr.invocations = 1 := by
  have h1 : 1 ≤ (NewRetrier a d m).maxTries := by
    show 1 ≤ (if a ≤ 0 then DefaultMaxTries else a)
    unfold DefaultMaxTries; split <;> omega
  have e1 := run_terminal_first_aux (NewRetrier a d m) h1 rand1 e op fuel1 hop
  have e2 := run_terminal_first_aux (NewRetrier a d m) h1 rand2 e op fuel2 hop
  exact ⟨e1.trans e2.symm, ⟨_, e1, rfl⟩⟩

/-! ## Loop lemmas shared by the remaining claims -/

/-- A constructed policy always has a positive `maxDelay`. -/
theorem newRetrier_maxDelay_pos (a d m : Int) : 0 < (NewRetrier a d m).maxDelay := by
  show 0 < (if m ≤ 0 then DefaultMaxDelay else m)
  unfold DefaultMaxDelay
  split <;> omega

/-- A constructed policy keeps a positive `maxTries` argument unchanged. -/
theorem newRetrier_maxTries_of_pos (a d m : Int) (ha : 0 < a) :
    (NewRetrier a d m).maxTries = a := by
  show (if a ≤ 0 then DefaultMaxTries else a) = a
  rw [if_neg (by omega)]

/-- One loop iteration of `Run` on a non-terminal failure that does not
exhaust the attempt budget: the operation is invoked, the counter
increments, one backoff sleep completes, and the loop continues. -/
theorem runAux_fail_step (r : Retrier) (hm : 0 < r.maxDelay) (rand : Int → Int)
    (op : Nat → Option GoError) (invoked sleeps fuel : Nat) (msg : String)
    (hop : op (invoked + 1) = some (GoError.base msg))
    (hne : ((invoked : Int) + 1) ≠ r.maxTries) :
    runAux r rand op (invoked : Int) invoked sleeps (fuel + 1)
      = runAux r rand op ((invoked : Int) + 1) (invoked + 1) (sleeps + 1) fuel := by
  rw [runAux]
  simp only [hop]
  rw [if_neg hne, getnextBackoff_eq_some rand _ _ _ hm]

/-- Iterated `runAux_fail_step`: a block of `j` consecutive non-terminal,
non-exhausting failures advances the loop by `j` invocations and `j`
completed sleeps. -/
theorem runAux_fail_prefix (r : Retrier) (hm : 0 < r.maxDelay) (rand : Int → Int)
    (op : Nat → Option GoError) (f : Nat → String) :
    ∀ (j invoked sleeps fuel : Nat),
      (∀ i, invoked < i → i ≤ invoked + j → op i = some (GoError.base (f i))) →
      (∀ i, invoked < i → i ≤ invoked + j → ((i : Int) ≠ r.maxTries)) →
      runAux r rand op (invoked : Int) invoked sleeps (fuel + j)
        = runAux r rand op ((invoked + j : Nat) : Int) (invoked + j) (sleeps + j) fuel := by
  intro j
  induction j with
  | zero => intro invoked sleeps fuel _ _; rfl
  | succ j ih =>
    intro invoked sleeps fuel hop hne
    have hstep : runAux r rand op (invoked : Int) invoked sleeps ((fuel + j) + 1)
        = runAux r rand op ((invoked : Int) + 1) (invoked + 1) (sleeps + 1) (fuel + j) :=
      runAux_fail_step r hm rand op invoked sleeps (fuel + j) (f (invoked + 1))
        (hop (invoked + 1) (by omega) (by omega))
        (by
          have h := hne (invoked + 1) (by omega) (by omega)
          exact_mod_cast h)
    have hrec := ih (invoked + 1) (sleeps + 1) fuel
      (fun i h1 h2 => hop i (by omega) (by omega))
      (fun i h1 h2 => hne i (by omega) (by omega))
    have hcast : ((invoked : Int) + 1) = ((invoked + 1 : Nat) : Int) := by push_cast; ring
    calc runAux r rand op (invoked : Int) invoked sleeps (fuel + (j + 1))
        = runAux r rand op ((invoked : Int) + 1) (invoked + 1) (sleeps + 1) (fuel + j) := by
          rw [show fuel + (j + 1) = (fuel + j) + 1 from by omega]; exact hstep
      _ = runAux r rand op ((invoked + 1 + j : Nat) : Int) (invoked + 1 + j) (sleeps + 1 + j) fuel := by
          rw [hcast]; exact hrec
      _ = runAux r rand op ((invoked + (j + 1) : Nat) : Int) (invoked + (j + 1)) (sleeps + (j + 1)) fuel := by
          rw [show invoked + 1 + j = invoked + (j + 1) from by omega,
            show sleeps + 1 + j = sleeps + (j + 1) from by omega]

/-- If the loop is entered with the counter strictly below `maxTries`, any
returned trace reports at most `maxTries` invocations. -/
theorem runAux_invocations_le (r : Retrier) (rand : Int → Int)
    (op : Nat → Option GoError) :
    ∀ (fuel invoked sleeps : Nat) (tr : RunTrace),
      (invoked : Int) < r.maxTries →
      runAux r rand op (invoked : Int) invoked sleeps fuel = some tr →
      (tr.invocations : Int) ≤ r.maxTries := by
  intro fuel
  induction fuel with
  | zero =>
    intro invoked sleeps tr _ h
    simp [runAux] at h
  | succ fuel ih =>
    intro invoked sleeps tr hlt h
    rw [runAux] at h
    cases hop : op (invoked + 1) with
    | none =>
      simp only [hop, Option.some.injEq] at h
      rw [← h]
      show ((invoked + 1 : Nat) : Int) ≤ r.maxTries
      push_cast
      omega
    | some err =>
      simp only [hop] at h
      split at h
      · simp only [Option.some.injEq] at h
        rw [← h]
        show ((invoked + 1 : Nat) : Int) ≤ r.maxTries
        push_cast
        omega
      · cases err with
        | term e =>
          simp only [Option.some.injEq] at h
          rw [← h]
          show ((invoked + 1 : Nat) : Int) ≤ r.maxTries
          push_cast
          omega
        | base msg =>
          cases hgb : getnextBackoff rand ((invoked : Int) + 1) r.initialDelay r.maxDelay with
          | none =>
            simp only [hgb, Option.some.injEq] at h
            rw [← h]
            show ((invoked + 1 : Nat) : Int) ≤ r.maxTries
            push_cast
            omega
          | some w =>
            simp only [hgb] at h
            have hlt' : ((invoked + 1 : Nat) : Int) < r.maxTries := by
              push_cast
              omega
            have h' : runAux r rand op ((invoked + 1 : Nat) : Int) (invoked + 1) (sleeps + 1) fuel
                = some tr := by
              rw [show ((invoked + 1 : Nat) : Int) = (invoked : Int) + 1 from by push_cast; ring]
              exact h
            exact ih (invoked + 1) (sleeps + 1) tr hlt' h'

/-! ## Claim C1: an always-failing operation is invoked exactly `maxTries` times -/

/-- C1: For every policy constructed with `maxAttempts = N` (N ≥ 1) and every
operation failing non-terminally on every invocation, `Run` invokes the
operation exactly N times and returns the failure of the Nth invocation;
moreover no operation is ever invoked more than `maxAttempts` times in one
run. -/
theorem run_always_fail_exact (N : Nat) (hN : 1 ≤ N) (d m : Int) (rand : Int → Int)
    (f : Nat → String) (op : Nat → Option GoError)
    (hop : ∀ i, op i = some (GoError.base (f i)))
    (fuel : Nat) (hfuel : N ≤ fuel) :
    (NewRetrier (N : Int) d m).run rand op fuel
      = some ⟨.failed (GoError.base (f N)), N, N - 1⟩ ∧
    ∀ (op' : Nat → Option GoError) (fuel' : Nat) (tr : RunTrace),
      (NewRetrier (N : Int) d m).run rand op' fuel' = some tr →
      tr.invocations ≤ N := by
  set r := NewRetrier (N : Int) d m with hr
  have hmax : r.maxTries = (N : Int) :=
    newRetrier_maxTries_of_pos (N : Int) d m (by exact_mod_cast hN)
  have hmd : 0 < r.maxDelay := newRetrier_maxDelay_pos (N : Int) d m
  constructor
  · show runAux r rand op 0 0 0 fuel = _
    have hpre := runAux_fail_prefix r hmd rand op f (N - 1) 0 0 (fuel - (N - 1))
      (fun i _ _ => hop i)
      (fun i h1 h2 => by
        rw [hmax]
        intro hcon
        have : i = N := by exact_mod_cast hcon
        omega)
    simp only [Nat.cast_zero, Nat.zero_add] at hpre
    conv_lhs => rw [show fuel = (fuel - (N - 1)) + (N - 1) from by omega]
    rw [hpre]
    obtain ⟨F, hF⟩ : ∃ F, fuel - (N - 1) = F + 1 := ⟨fuel - (N - 1) - 1, by omega⟩
    rw [hF, runAux, show (N - 1) + 1 = N from by omega]
    simp only [hop N]
    rw [if_pos (by rw [hmax]; omega)]
  · intro op' fuel' tr htr
    have hlt : ((0 : Nat) : Int) < r.maxTries := by rw [hmax]; exact_mod_cast hN
    have := runAux_invocations_le r rand op' fuel' 0 0 tr hlt htr
    rw [hmax] at this
    exact_mod_cast this

/-- Witness for C1 at `N = 2`. -/
theorem run_always_fail_exact_witness :
    (NewRetrier 2 1 1).run (fun _ => 0) (fun _ => some (GoError.base "e")) 2
      = some ⟨.failed (GoError.base "e"), 2, 2 - 1⟩ ∧
    ∀ (op' : Nat → Option GoError) (fuel' : Nat) (tr : RunTrace),
      (NewRetrier 2 1 1).run (fun _ => 0) op' fuel' = some tr →
      tr.invocations ≤ 2 :=
  run_always_fail_exact 2 (by omega) 1 1 (fun _ => 0) (fun _ => "e")
    (fun _ => some (GoError.base "e")) (fun _ => rfl) 2 (le_refl 2)

/-! ## Claim C6: success on invocation K stops the loop without a further wait -/

/-- C6: For every policy and every operation that succeeds on invocation K
(K ≤ maxAttempts) after failing non-terminally on invocations 1..K-1, `Run`
invokes the operation exactly K times and returns success; exactly K-1
backoff waits complete, so no wait follows the final successful
invocation. -/
theorem run_success_exact (a d m : Int) (rand : Int → Int) (f : Nat → String)
    (op : Nat → Option GoError) (K : Nat) (hK : 1 ≤ K)
    (hKN : (K : Int) ≤ (NewRetrier a d m).maxTries)
    (hfail : ∀ i, 1 ≤ i → i < K → op i = some (GoError.base (f i)))
    (hsucc : op K = none)
    (fuel : Nat) (hfuel : K ≤ fuel) :
    (NewRetrier a d m).run rand op fuel = some ⟨.ok, K, K - 1⟩ := by
  set r := NewRetrier a d m with hr
  have hmd : 0 < r.maxDelay := newRetrier_maxDelay_pos a d m
  show runAux r rand op 0 0 0 fuel = _
  have hpre := runAux_fail_prefix r hmd rand op f (K - 1) 0 0 (fuel - (K - 1))
    (fun i h1 h2 => hfail i (by omega) (by omega))
    (fun i h1 h2 => by
      have hi : (i : Int) < r.maxTries := lt_of_lt_of_le (by exact_mod_cast (by omega : i < K)) hKN
      omega)
  simp only [Nat.cast_zero, Nat.zero_add] at hpre
  conv_lhs => rw [show fuel = (fuel - (K - 1)) + (K - 1) from by omega]
  rw [hpre]
  obtain ⟨F, hF⟩ : ∃ F, fuel - (K - 1) = F + 1 := ⟨fuel - (K - 1) - 1, by omega⟩
  rw [hF, runAux, show (K - 1) + 1 = K from by omega, hsucc]

/-- Witness for C6: immediate success (K = 1) — one invocation, no waits. -/
theorem run_success_exact_witness :
    (NewRetrier 5 1 1).run (fun _ => 0) (fun _ => none) 1 = some ⟨.ok, 1, 1 - 1⟩ :=
  run_success_exact 5 1 1 (fun _ => 0) (fun _ => "e") (fun _ => none) 1 (le_refl 1)
    (by show (1 : Int) ≤ 5; omega) (fun i h1 h2 => absurd h2 (by omega)) rfl 1 (le_refl 1)

/-! ## Claim C7: cancellation during a wait stops the loop with the last failure -/

/-- One loop iteration of `RunContext` on a non-terminal, non-exhausting
failure whose following wait is not cancelled. -/
theorem runContextAux_fail_step (r : Retrier) (hm : 0 < r.maxDelay)
    (rand : Int → Int) (cancelled : Nat → Bool) (op : Nat → Option GoError)
    (invoked sleeps fuel : Nat) (msg : String)
    (hop : op (invoked + 1) = some (GoError.base msg))
    (hne : ((invoked : Int) + 1) ≠ r.maxTries)
    (hnc : cancelled (invoked + 1) = false) :
    runContextAux r rand cancelled op (invoked : Int) invoked sleeps (fuel + 1)
      = runContextAux r rand cancelled op ((invoked : Int) + 1) (invoked + 1) (sleeps + 1) fuel := by
  rw [runContextAux]
  simp only [hop]
  rw [if_neg hne, getnextBackoff_eq_some rand _ _ _ hm]
  simp [hnc]

/-- Iterated `runContextAux_fail_step` over a block of `j` failures with
uncancelled waits. -/
theorem runContextAux_fail_prefix (r : Retrier) (hm : 0 < r.maxDelay)
    (rand : Int → Int) (cancelled : Nat → Bool) (op : Nat → Option GoError)
    (f : Nat → String) :
    ∀ (j invoked sleeps fuel : Nat),
      (∀ i, invoked < i → i ≤ invoked + j → op i = some (GoError.base (f i))) →
      (∀ i, invoked < i → i ≤ invoked + j → ((i : Int) ≠ r.maxTries)) →
      (∀ i, invoked < i → i ≤ invoked + j → cancelled i = false) →
      runContextAux r rand cancelled op (invoked : Int) invoked sleeps (fuel + j)
        = runContextAux r rand cancelled op ((invoked + j : Nat) : Int) (invoked + j)
            (sleeps + j) fuel := by
  intro j
  induction j with
  | zero => intro invoked sleeps fuel _ _ _; rfl
  | succ j ih =>
    intro invoked sleeps fuel hop hne hnc
    have hstep : runContextAux r rand cancelled op (invoked : Int) invoked sleeps ((fuel + j) + 1)
        = runContextAux r rand cancelled op ((invoked : Int) + 1) (invoked + 1) (sleeps + 1)
            (fuel + j) :=
      runContextAux_fail_step r hm rand cancelled op invoked sleeps (fuel + j) (f (invoked + 1))
        (hop (invoked + 1) (by omega) (by omega))
        (by
          have h := hne (invoked + 1) (by omega) (by omega)
          exact_mod_cast h)
        (hnc (invoked + 1) (by omega) (by omega))
    have hrec := ih (invoked + 1) (sleeps + 1) fuel
      (fun i h1 h2 => hop i (by omega) (by omega))
      (fun i h1 h2 => hne i (by omega) (by omega))
      (fun i h1 h2 => hnc i (by omega) (by omega))
    have hcast : ((invoked : Int) + 1) = ((invoked + 1 : Nat) : Int) := by push_cast; ring
    calc runContextAux r rand cancelled op (invoked : Int) invoked sleeps (fuel + (j + 1))
        = runContextAux r rand cancelled op ((invoked : Int) + 1) (invoked + 1) (sleeps + 1)
            (fuel + j) := by
          rw [show fuel + (j + 1) = (fuel + j) + 1 from by omega]; exact hstep
      _ = runContextAux r rand cancelled op ((invoked + 1 + j : Nat) : Int) (invoked + 1 + j)
            (sleeps + 1 + j) fuel := by
          rw [hcast]; exact hrec
      _ = runContextAux r rand cancelled op ((invoked + (j + 1) : Nat) : Int) (invoked + (j + 1))
            (sleeps + (j + 1)) fuel := by
          rw [show invoked + 1 + j = invoked + (j + 1) from by omega,
            show sleeps + 1 + j = sleeps + (j + 1) from by omega]

/-- C7: When the cancellation signal wins the select during the wait that
follows the k-th failed invocation (all failures non-terminal, budget not
yet exhausted), `RunContext` stops without initiating another attempt and
returns the k-th (most recent) failure value itself — no cancellation error
and no fabricated error. -/
theorem runContext_cancelled_during_wait (a d m : Int) (rand : Int → Int)
    (cancelled : Nat → Bool) (f : Nat → String) (op : Nat → Option GoError)
    (k : Nat) (hk : 1 ≤ k) (hkN : (k : Int) < (NewRetrier a d m).maxTries)
    (hop : ∀ i, 1 ≤ i → i ≤ k → op i = some (GoError.base (f i)))
    (hc1 : ∀ i, 1 ≤ i → i < k → cancelled i = false)
    (hc2 : cancelled k = true)
    (fuel : Nat) (hfuel : k ≤ fuel) :
    (NewRetrier a d m).runContext rand cancelled op fuel
      = some ⟨.failed (GoError.base (f k)), k, k - 1⟩ := by
  set r := NewRetrier a d m with hr
  have hmd : 0 < r.maxDelay := newRetrier_maxDelay_pos a d m
  show runContextAux r rand cancelled op 0 0 0 fuel = _
  have hpre := runContextAux_fail_prefix r hmd rand cancelled op f (k - 1) 0 0 (fuel - (k - 1))
    (fun i h1 h2 => hop i (by omega) (by omega))
    (fun i h1 h2 => by
      have hi : (i : Int) < r.maxTries :=
        lt_trans (by exact_mod_cast (by omega : i < k)) hkN
      omega)
    (fun i h1 h2 => hc1 i (by omega) (by omega))
  simp only [Nat.cast_zero, Nat.zero_add] at hpre
  conv_lhs => rw [show fuel = (fuel - (k - 1)) + (k - 1) from by omega]
  rw [hpre]
  obtain ⟨F, hF⟩ : ∃ F, fuel - (k - 1) = F + 1 := ⟨fuel - (k - 1) - 1, by omega⟩
  rw [hF, runContextAux, show (k - 1) + 1 = k from by omega]
  simp only [hop k (by omega) (le_refl k)]
  rw [if_neg (by omega), getnextBackoff_eq_some rand _ _ _ hmd]
  simp [hc2]

/-- Witness for C7: cancellation during the first wait (k = 1). -/
theorem runContext_cancelled_during_wait_witness :
    (NewRetrier 3 1 1).runContext (fun _ => 0) (fun _ => true)
        (fun _ => some (GoError.base "e")) 1
      = some ⟨.failed (GoError.base "e"), 1, 1 - 1⟩ :=
  runContext_cancelled_during_wait 3 1 1 (fun _ => 0) (fun _ => true) (fun _ => "e")
    (fun _ => some (GoError.base "e")) 1 (le_refl 1) (by show (1 : Int) < 3; omega)
    (fun i h1 h2 => rfl) (fun i h1 h2 => absurd h2 (by omega)) rfl 1 (le_refl 1)

/-- Witness for C9 with two different jitter oracles and fuels. -/
theorem run_terminal_rand_independent_witness :
    (NewRetrier 5 1 1).run (fun _ => 0)
        (fun _ => some (GoError.term (GoError.base "x"))) (0 + 1)
      = (NewRetrier 5 1 1).run (fun _ => 1)
        (fun _ => some (GoError.term (GoError.base "x"))) (3 + 1) ∧
    ∃ tr : RunTrace, (NewRetrier 5 1 1).run (fun _ => 0)
        (fun _ => some (GoError.term (GoError.base "x"))) (0 + 1) = some tr ∧
      tr.invocations = 1 :=
  run_terminal_rand_independent 5 1 1 (fun _ => 0) (fun _ => 1) _
    (GoError.base "x") rfl 0 3

/-! ## Claim C5: the shape of the jittered draw -/

/-- Values already inside `int64` range are unchanged by the wrap. -/
theorem int64wrap_eq_self (x : Int) (h1 : -(2 ^ 63) ≤ x) (h2 : x < 2 ^ 63) :
    int64wrap x = x := by
  have p63 : (2 : Int) ^ 63 = 9223372036854775808 := by norm_num
  have p64 : (2 : Int) ^ 64 = 18446744073709551616 := by norm_num
  unfold int64wrap
  rw [p63, p64] at *
  rw [Int.emod_eq_of_lt (by omega) (by omega)]
  omega

/-- Small shift amounts give the exact power of two. -/
theorem goShl1_small (s : Nat) (hs : s < 63) : goShl1 s = 2 ^ s := by
  unfold goShl1
  rw [if_neg (by omega)]
  have hpos : (0 : Int) < 2 ^ s := by positivity
  have hlt : (2 : Int) ^ s < 2 ^ 63 := by
    have := Nat.pow_lt_pow_right (by omega : 1 < 2) hs
    exact_mod_cast this
  exact int64wrap_eq_self _ (by omega) hlt

/-- Conversion `uint(attempts)` is the identity on small non-negative
attempt counters. -/
theorem gouint64_small (k : Nat) (hk : (k : Int) < 2 ^ 64) : gouint64 (k : Int) = k := by
  unfold gouint64
  rw [Int.emod_eq_of_lt (by exact_mod_cast Nat.zero_le k) hk]
  exact Int.toNat_natCast k

/-- C5 counterexample: with attempt number 1, `initialDelay = 8` and
`maxDelay = 100`, the claimed full-jitter scheme draws in
`[base, 2*base) = [8, 16)` and clamps to 100, so every claimed output is at
least 8; yet the code admits the valid draw 0 (`rand.Int63n` may return 0)
and then returns 0, which is below `base`.  The code draws from
`[0, 2*base)`, not `[base, 2*base)`. -/
theorem backoff_jitter_counterexample :
    RandModel (fun _ => 0) ∧
    getnextBackoff (fun _ => 0) 1 8 100 = some 0 ∧
    ¬ ((8 : Int) ≤ 0) := by
  refine ⟨fun n hn => ⟨le_refl 0, hn⟩, ?_, by omega⟩
  rfl

/-- C5 amended: for every attempt number k ≥ 1 with positive `initialDelay`
and no overflow, writing `base = initialDelay * 2^(k-1)`, the backoff
computation draws the jittered value uniformly in `[0, 2*base)` (the code
passes `initialDelay * 2^k = 2*base` to `rand.Int63n`, so the draw may fall
below `base`) and clamps the result to `maxDelay` via `min`. -/
theorem backoff_jitter_range (rand : Int → Int) (k : Nat) (hk : 1 ≤ k)
    (initialDelay maxDelay : Int) (hd : 0 < initialDelay)
    (hov : initialDelay * 2 ^ k < 2 ^ 63) :
    getnextBackoff rand (k : Int) initialDelay maxDelay
      = some (goMin maxDelay (rand (2 * (initialDelay * 2 ^ (k - 1))))) ∧
    (RandModel rand →
      0 ≤ rand (2 * (initialDelay * 2 ^ (k - 1))) ∧
      rand (2 * (initialDelay * 2 ^ (k - 1))) < 2 * (initialDelay * 2 ^ (k - 1))) := by
  have hpow : (2 : Int) ^ k = 2 * 2 ^ (k - 1) := by
    conv_lhs => rw [show k = (k - 1) + 1 from by omega]
    rw [pow_succ']
  have harg : 2 * (initialDelay * 2 ^ (k - 1)) = initialDelay * 2 ^ k := by
    rw [hpow]; ring
  have hppos : (0 : Int) < 2 ^ k := by positivity
  have h2k : (2 : Int) ^ k < 2 ^ 63 := by
    calc (2 : Int) ^ k ≤ initialDelay * 2 ^ k := le_mul_of_one_le_left (by omega) (by omega)
      _ < 2 ^ 63 := hov
  have hk63 : k < 63 := by
    by_contra hcon
    have : (2 : Int) ^ 63 ≤ 2 ^ k := by
      have := Nat.pow_le_pow_right (by omega : 1 ≤ 2) (by omega : 63 ≤ k)
      exact_mod_cast this
    omega
  have hu : gouint64 (k : Int) = k := gouint64_small k (by
    have : (2 : Int) ^ 63 ≤ 2 ^ 64 := by norm_num
    have hlt : (k : Int) < 2 ^ 63 := by
      have := Nat.pow_lt_pow_right (by omega : 1 < 2) hk63
      have hkk : (k : Int) < 2 ^ k := by
        have := Nat.lt_two_pow k
        exact_mod_cast this
      omega
    omega)
  have hwrap : int64wrap (initialDelay * goShl1 (gouint64 (k : Int)))
      = initialDelay * 2 ^ k := by
    rw [hu, goShl1_small k hk63]
    exact int64wrap_eq_self _
      (le_trans (neg_nonpos_of_nonneg (by positivity)) (by positivity)) hov
  have hprod : (0 : Int) < initialDelay * 2 ^ k := by positivity
  have hbArg : backoffArg (k : Int) initialDelay maxDelay = initialDelay * 2 ^ k := by
    rw [backoffArg_def, hwrap, if_neg (by omega), if_neg (by omega)]
  constructor
  · rw [getnextBackoff_def, hbArg, if_neg (by omega), harg]
  · intro hrand
    have := hrand (2 * (initialDelay * 2 ^ (k - 1))) (by rw [harg]; exact hprod)
    exact this

/-- Witness for C5 (amended) at k = 3, initialDelay = 5, maxDelay = 7. -/
theorem backoff_jitter_range_witness :
    getnextBackoff (fun _ => 0) ((3 : Nat) : Int) 5 7
      = some (goMin 7 ((fun _ => (0 : Int)) (2 * (5 * 2 ^ (3 - 1))))) ∧
    (RandModel (fun _ => (0 : Int)) →
      0 ≤ (fun _ => (0 : Int)) (2 * (5 * 2 ^ (3 - 1))) ∧
      (fun _ => (0 : Int)) (2 * (5 * 2 ^ (3 - 1))) < 2 * (5 * 2 ^ (3 - 1))) :=
  backoff_jitter_range (fun _ => 0) 3 (by omega) 5 7 (by omega) (by norm_num)

end Retry
